import Mathlib

/-!
Verification of the grid placement core of the Witness sandbox.

The development shallowly embeds the Grid component (drop geometry,
placement validator, grid state machine), the pattern engine
(rotate / trim) and the hover preview. Pixel coordinates are modelled
as integers; JavaScript `Math.floor(a/b)` and `Math.round(a/b)` for a
positive integer divisor `b` are modelled by `jsFloorDiv` and
`jsRoundDiv`. JavaScript `Set` and `Map` collections are modelled as
lists with membership semantics (a toggle deletes every copy of a key,
an insert conses the key after deleting it, so a key is present at most
once, exactly as in a `Set` / `Map`).
-/

namespace TWS

/-- JavaScript Math.floor of the rational quotient a / b, for b > 0. -/
def jsFloorDiv (a b : ℤ) : ℤ := Int.fdiv a b

/-- JavaScript Math.round of the rational quotient a / b, for b > 0:
Math.round x = floor (x + 1/2), and floor (a/b + 1/2) = fdiv (2a+b) (2b). -/
def jsRoundDiv (a b : ℤ) : ℤ := Int.fdiv (2 * a + b) (2 * b)

/-- A piece pattern: a matrix of 0/1 entries (source: number[][]). -/
abbrev Pattern := List (List ℕ)

/-- A grid cell identity. The source uses the string id "row-col"; the pair
encoding is faithful since the source only ever builds and compares such ids
from (row, col) pairs. -/
abbrev Cell := ℤ × ℤ

/-- A placed piece (source: interface PlacedPiece). -/
structure Piece where
  id : String
  type : String
  pattern : Pattern
  originalPattern : Pattern
  color : String
  row : ℤ
  col : ℤ
  rotation : ℕ
deriving DecidableEq

/-- A cell miniature overlay (source: value type of the cellMinis map). -/
structure Mini where
  pattern : Pattern
  color : String
deriving DecidableEq

/-- The authoritative grid state (source: the four useState collections
pieces, walls, markedCells, cellMinis of the Grid component). -/
structure GridState where
  pieces : List Piece
  walls : List String
  markedCells : List Cell
  cellMinis : List (Cell × Mini)
deriving DecidableEq

/-- The initial / cleared state (source: initial useState values, clearGrid). -/
def initialState : GridState := ⟨[], [], [], []⟩

/-- A drag item (source: the object returned by the useDrag item callback;
pattern, pointerOffset and pieceId may be absent on an item, hence Option). -/
structure DragItem where
  pattern : Option Pattern
  pointerOffset : Option (ℤ × ℤ)
  pieceId : Option String
  type : String
  color : String
deriving DecidableEq

/-- Source rotatePattern (Grid.tsx lines 50-62, identically in
PaletteShape): rotated is a cols x rows matrix with
rotated[j][rows-1-i] = pattern[i][j]; so row j of the result holds at
position k the entry pattern[rows-1-k][j] (entries never written stay 0). -/
def rotatePattern (pattern : Pattern) : Pattern :=
  let rows := pattern.length
  let cols := (pattern.headD []).length
  (List.range cols).map (fun j => (List.range rows).map
    (fun k => (pattern.getD (rows - 1 - k) []).getD j 0))

/-- The pattern is rectangular with R rows of length C. -/
def Rect (p : Pattern) (R C : ℕ) : Prop :=
  p.length = R ∧ ∀ r ∈ p, r.length = C

/-- Source Grid.tsx lines 106-111: block index of the grabbed sub-block on
one axis, floor of grabOffset / (cellSize + gapSize), then clamped below at
0 and above at extent - 1 by two sequential if statements. -/
def blockIndex (offset SG : ℤ) (extent : ℕ) : ℤ :=
  let b := jsFloorDiv offset SG
  let b1 := if b < 0 then 0 else b
  if b1 ≥ (extent : ℤ) then (extent : ℤ) - 1 else b1

/-- Source Grid.tsx lines 114-117: origin cell on one axis,
round((pointer - containerOrigin - padding) / (cellSize + gapSize)) minus
the block index. -/
def originAxis (pointer rectOrigin padding SG blockIdx : ℤ) : ℤ :=
  jsRoundDiv (pointer - rectOrigin - padding) SG - blockIdx

/-- The (row, col) origin the drop path computes (Grid.tsx lines 102-117);
also used verbatim by the hover preview (lines 235-249, identical code). -/
def dropOrigin (cellSize gapSize : ℤ) (pattern : Pattern)
    (pointerOffset : Option (ℤ × ℤ)) (off : ℤ × ℤ)
    (rectLeft rectTop : ℤ) : ℤ × ℤ :=
  let padding := gapSize + 3
  let po := pointerOffset.getD (0, 0)
  let bX := blockIndex po.1 (cellSize + gapSize) (pattern.headD []).length
  let bY := blockIndex po.2 (cellSize + gapSize) pattern.length
  (originAxis off.2 rectTop padding (cellSize + gapSize) bY,
   originAxis off.1 rectLeft padding (cellSize + gapSize) bX)

/-- Positions (i, j) of the set cells of a pattern, in the nested loop order
of the source (outer i over rows, inner j over the cells of row i). -/
def setPositions (pat : Pattern) : List (ℕ × ℕ) :=
  (List.range pat.length).flatMap (fun i =>
    ((List.range (pat.getD i []).length).filter
      (fun j => decide ((pat.getD i []).getD j 0 ≠ 0))).map (fun j => (i, j)))

/-- Grid cells covered by a pattern placed at origin (row, col). -/
def footprintCells (pattern : Pattern) (row col : ℤ) : List Cell :=
  (setPositions pattern).map (fun ij => (row + (ij.1 : ℤ), col + (ij.2 : ℤ)))

/-- Source Grid.tsx lines 119-130: the placement validator accepts iff every
set cell lands inside [0, rows) x [0, cols); overlap is never examined. -/
def placementValid (rows cols : ℕ) (pattern : Pattern) (row col : ℤ) : Bool :=
  (footprintCells pattern row col).all (fun rc =>
    decide (0 ≤ rc.1) && decide (rc.1 < (rows : ℤ)) &&
    decide (0 ≤ rc.2) && decide (rc.2 < (cols : ℤ)))

/-- Source Grid.tsx lines 79-82: the single-cell mapping of the edition
mode drop, (rowCell, colCell) with each axis rounded to the nearest cell,
no grab-offset adjustment. -/
def editionCell (cellSize gapSize : ℤ) (off0 : ℤ × ℤ)
    (rectLeft rectTop : ℤ) : Cell :=
  (jsRoundDiv (off0.2 - rectTop - (gapSize + 3)) (cellSize + gapSize),
   jsRoundDiv (off0.1 - rectLeft - (gapSize + 3)) (cellSize + gapSize))

/-- Source Grid.tsx line 134: the find over pieces comparing each piece id with pieceId; with no
pieceId the comparison is always false, so nothing is found. -/
def existingPiece (pieceId : Option String) (pieces : List Piece) : Option Piece :=
  match pieceId with
  | some pid => pieces.find? (fun p => decide (p.id = pid))
  | none => none

/-- Source Grid.tsx line 150: the filter predicate !(pieceId && p.id ===
pieceId) keeps a piece unless an id was supplied and matches. -/
def keepPiece (pieceId : Option String) (p : Piece) : Bool :=
  match pieceId with
  | some pid => decide (p.id ≠ pid)
  | none => true

/-- Source Grid.tsx lines 134-147: the piece object appended on a
successful drop, preserving originalPattern and rotation of an existing
piece with the same id. -/
def newPieceOf (item : DragItem) (pattern : Pattern) (rc : ℤ × ℤ)
    (freshId : String) (st : GridState) : Piece :=
  { id := item.pieceId.getD freshId
    type := item.type
    pattern := pattern
    originalPattern :=
      ((existingPiece item.pieceId st.pieces).map Piece.originalPattern).getD pattern
    color := item.color
    row := rc.1
    col := rc.2
    rotation := ((existingPiece item.pieceId st.pieces).map Piece.rotation).getD 0 }

/-- Source Grid.tsx handleDrop (lines 64-153). Early returns: missing client
offset (the missing-container case behaves identically), missing or empty
pattern. Edition mode branch (lines 78-99): single-cell mapping, bounds
check, insert/overwrite the mini, delete any marker at the cell. Placement
branch (lines 102-152): grab-offset mapping, bounds-only validation, then
atomic filter-out-same-id plus append. freshId stands for the generated id
piece-Date.now()-Math.random() used when the item carries no pieceId. -/
def handleDrop (editionMode : Bool) (rows cols : ℕ) (cellSize gapSize : ℤ)
    (item : DragItem) (clientOffset : Option (ℤ × ℤ))
    (rectLeft rectTop : ℤ) (freshId : String) (st : GridState) : GridState :=
  match clientOffset with
  | none => st
  | some off =>
    match item.pattern with
    | none => st
    | some pattern =>
      if pattern.length = 0 then st
      else
        if editionMode then
          let cell := editionCell cellSize gapSize off rectLeft rectTop
          if cell.2 < 0 ∨ cell.2 ≥ (cols : ℤ) ∨ cell.1 < 0 ∨ cell.1 ≥ (rows : ℤ) then st
          else
            { st with
              cellMinis := (cell, Mini.mk pattern item.color) ::
                st.cellMinis.filter (fun q => decide (q.1 ≠ cell)),
              markedCells := st.markedCells.filter
                (fun c => decide (c ≠ cell)) }
        else
          let rc := dropOrigin cellSize gapSize pattern item.pointerOffset off rectLeft rectTop
          if placementValid rows cols pattern rc.1 rc.2 then
            { st with pieces :=
                st.pieces.filter (keepPiece item.pieceId) ++
                  [newPieceOf item pattern rc freshId st] }
          else st

/-- Source Grid.tsx removePiece (lines 155-157). -/
def removePiece (id : String) (st : GridState) : GridState :=
  { st with pieces := st.pieces.filter (fun p => decide (p.id ≠ id)) }

/-- Source Grid.tsx rotatePiece (lines 159-167). -/
def rotatePiece (id : String) (st : GridState) : GridState :=
  { st with pieces := st.pieces.map (fun p =>
      if p.id = id then
        { p with pattern := rotatePattern p.pattern,
                 rotation := (p.rotation + 90) % 360 }
      else p) }

/-- Source Grid.tsx toggleWall (lines 169-180). -/
def toggleWall (wallId : String) (st : GridState) : GridState :=
  { st with walls :=
      if wallId ∈ st.walls then st.walls.filter (fun w => decide (w ≠ wallId))
      else wallId :: st.walls }

/-- Source Grid.tsx toggleMarkedCell (lines 189-211): a mini at the cell is
removed first (and the marker is left untouched); otherwise the marker
membership is flipped. -/
def toggleMarkedCell (cellId : Cell) (st : GridState) : GridState :=
  if st.cellMinis.any (fun q => decide (q.1 = cellId)) then
    { st with cellMinis := st.cellMinis.filter (fun q => decide (q.1 ≠ cellId)) }
  else
    { st with markedCells :=
        if cellId ∈ st.markedCells then
          st.markedCells.filter (fun c => decide (c ≠ cellId))
        else cellId :: st.markedCells }

/-- Source Grid.tsx getHoverCells (lines 221-264): empty set unless an
in-progress placement-mode drag with a structurally valid pattern is under
way; otherwise the same grab-offset mapping as the drop path, but keeping
exactly the in-bounds footprint cells (out-of-bounds cells are skipped
instead of rejecting the whole set). -/
def getHoverCells (isDragging : Bool) (dragItem : Option DragItem)
    (dragClientOffset : Option (ℤ × ℤ)) (editionMode : Bool)
    (rows cols : ℕ) (cellSize gapSize rectLeft rectTop : ℤ) : List Cell :=
  match isDragging, dragItem, dragClientOffset with
  | true, some item, some off =>
    if editionMode then []
    else
      match item.pattern with
      | none => []
      | some pattern =>
        if pattern.length = 0 then []
        else
          let rc := dropOrigin cellSize gapSize pattern item.pointerOffset off rectLeft rectTop
          (footprintCells pattern rc.1 rc.2).filter (fun cell =>
            decide (0 ≤ cell.1) && decide (cell.1 < (rows : ℤ)) &&
            decide (0 ≤ cell.2) && decide (cell.2 < (cols : ℤ)))
  | _, _, _ => []

/-- Source Grid.tsx getCellColor helper: does the piece cover cell
(row, col), i.e. is some set pattern cell offset by the piece origin equal
to it (lines 290-295). -/
def pieceCovers (p : Piece) (row col : ℤ) : Bool :=
  (List.range p.pattern.length).any (fun r =>
    (List.range (p.pattern.getD r []).length).any (fun c =>
      decide ((p.pattern.getD r []).getD c 0 ≠ 0) &&
      decide (p.row + (r : ℤ) = row) && decide (p.col + (c : ℤ) = col)))

/-- Source Grid.tsx getCellColor (lines 286-299): scan the pieces from the
last placed to the first, return the color of the first piece covering the
cell, else null (the background). -/
def getCellColor (pieces : List Piece) (row col : ℤ) : Option String :=
  (pieces.reverse.find? (fun p => pieceCovers p row col)).map Piece.color

/-- Source Grid.tsx useDrag end handler of PieceOverlay (lines 652-656)
combined with the useDrop drop handler of the grid (lines 334-344): when the
release happens over the grid target, the drop handler runs handleDrop and
returns dropped, so didDrop() is true and the end handler does nothing
more; otherwise didDrop() is false and the end handler removes the dragged
piece (palette items carry no pieceId and have nothing to remove). -/
def dragEnd (droppedOnTarget : Bool) (editionMode : Bool) (rows cols : ℕ)
    (cellSize gapSize : ℤ) (item : DragItem)
    (clientOffset : Option (ℤ × ℤ)) (rectLeft rectTop : ℤ)
    (freshId : String) (st : GridState) : GridState :=
  if droppedOnTarget then
    handleDrop editionMode rows cols cellSize gapSize item clientOffset
      rectLeft rectTop freshId st
  else
    match item.pieceId with
    | some pid => removePiece pid st
    | none => st

/-- States reachable from the cleared grid through the grid operations. The
drop constructor carries the freshness of the generated id
piece-Date.now()-Math.random() (used only when the item has no pieceId) as
a side condition. -/
inductive Reachable : GridState → Prop where
  | init : Reachable initialState
  | drop (st : GridState) (em : Bool) (rows cols : ℕ) (S G : ℤ)
      (item : DragItem) (off : Option (ℤ × ℤ)) (rl rt : ℤ) (fid : String)
      (h : Reachable st)
      (hfresh : item.pieceId = none → fid ∉ st.pieces.map Piece.id) :
      Reachable (handleDrop em rows cols S G item off rl rt fid st)
  | removeP (st : GridState) (pid : String) (h : Reachable st) :
      Reachable (removePiece pid st)
  | rotateP (st : GridState) (pid : String) (h : Reachable st) :
      Reachable (rotatePiece pid st)
  | wall (st : GridState) (wid : String) (h : Reachable st) :
      Reachable (toggleWall wid st)
  | mark (st : GridState) (cid : Cell) (h : Reachable st) :
      Reachable (toggleMarkedCell cid st)
  | clear (st : GridState) (h : Reachable st) : Reachable initialState

/-- The resolution rule stated by the spec: the most recently placed piece
whose footprint covers the cell wins; with no covering piece the background
(none) is reported. Stated through the covering sublist in placement order
and its last element. -/
def topmostCoveringColor (pieces : List Piece) (row col : ℤ) : Option String :=
  ((pieces.filter (fun p => pieceCovers p row col)).getLast?).map Piece.color

/-- Mutual exclusion of markers and minis: no marked cell also carries a
mini. -/
def MarkMiniExclusive (st : GridState) : Prop :=
  ∀ cid ∈ st.markedCells, ∀ q ∈ st.cellMinis, q.1 ≠ cid

/-- A set cell of a pattern at row i, column j. -/
def SetCell (p : Pattern) (i j : ℕ) : Prop :=
  i < p.length ∧ j < (p.getD i []).length ∧ (p.getD i []).getD j 0 ≠ 0

instance (p : Pattern) (i j : ℕ) : Decidable (SetCell p i j) := by
  unfold SetCell
  infer_instance

/-- Source ShapeCreator.tsx lines 36-50: the four bounding trackers of
trimPattern. The source initialises minRow to pat.length, minCol to
pat[0].length and the max trackers to -1; over the naturals the max
trackers start at 0 instead, which agrees with the source whenever a set
cell exists (the only case where the trackers are read). -/
def trimMinRow (pat : Pattern) : ℕ :=
  ((setPositions pat).map Prod.fst).foldl min pat.length

def trimMaxRow (pat : Pattern) : ℕ :=
  ((setPositions pat).map Prod.fst).foldl max 0

def trimMinCol (pat : Pattern) : ℕ :=
  ((setPositions pat).map Prod.snd).foldl min (pat.headD []).length

def trimMaxCol (pat : Pattern) : ℕ :=
  ((setPositions pat).map Prod.snd).foldl max 0

/-- Source ShapeCreator.tsx trimPattern (lines 34-62): with no set cell
(minRow exceeding maxRow in the source, equivalently no set position) return
[[1]]; otherwise slice rows minRow..maxRow to columns minCol..maxCol
(slice(minCol, maxCol+1) is drop minCol then take maxCol+1-minCol). -/
def trimPattern (pat : Pattern) : Pattern :=
  if setPositions pat = [] then [[1]]
  else
    (List.range (trimMaxRow pat + 1 - trimMinRow pat)).map
      (fun t => ((pat.getD (trimMinRow pat + t) []).drop (trimMinCol pat)).take
        (trimMaxCol pat + 1 - trimMinCol pat))

theorem rotatePattern_length (p : Pattern) :
    (rotatePattern p).length = (p.headD []).length := by
  simp [rotatePattern]

theorem rotatePattern_getD (p : Pattern) (j : ℕ)
    (hj : j < (p.headD []).length) :
    (rotatePattern p).getD j [] =
      (List.range p.length).map
        (fun k => (p.getD (p.length - 1 - k) []).getD j 0) := by
  simp only [List.headD_eq_head?_getD] at hj
  simp [rotatePattern, List.getD_eq_getElem?_getD, List.getElem?_map,
    List.getElem?_range, hj]

theorem rotatePattern_entry (p : Pattern) (j k : ℕ)
    (hj : j < (p.headD []).length) (hk : k < p.length) :
    ((rotatePattern p).getD j []).getD k 0 =
      (p.getD (p.length - 1 - k) []).getD j 0 := by
  rw [rotatePattern_getD p j hj]
  simp [List.getD_eq_getElem?_getD, List.getElem?_map, List.getElem?_range, hk]

theorem getD_eq_getElem {α : Type} (l : List α) (d : α) (i : ℕ)
    (h : i < l.length) : l.getD i d = l[i] := by
  simp [List.getD_eq_getElem?_getD, List.getElem?_eq_getElem h]

theorem ext_of_getD {α : Type} (l₁ l₂ : List α) (d : α)
    (hlen : l₁.length = l₂.length)
    (h : ∀ i, i < l₁.length → l₁.getD i d = l₂.getD i d) : l₁ = l₂ := by
  apply List.ext_getElem hlen
  intro i h₁ h₂
  rw [← getD_eq_getElem l₁ d i h₁, ← getD_eq_getElem l₂ d i h₂]
  exact h i h₁

theorem pattern_ext (p q : Pattern) (hlen : p.length = q.length)
    (hrow : ∀ i, i < p.length → (p.getD i []).length = (q.getD i []).length)
    (h : ∀ i j, i < p.length → j < (p.getD i []).length →
      (p.getD i []).getD j 0 = (q.getD i []).getD j 0) : p = q := by
  apply ext_of_getD p q [] hlen
  intro i hi
  apply ext_of_getD _ _ 0 (hrow i hi)
  intro j hj
  exact h i j hi hj

theorem rect_headD {p : Pattern} {R C : ℕ} (h : Rect p R C) (hR : 0 < R) :
    (p.headD []).length = C := by
  have hne : p ≠ [] := by
    intro hnil
    have h1 := h.1
    rw [hnil] at h1
    simp at h1
    omega
  rw [List.headD_eq_head?_getD, List.head?_eq_head hne]
  exact h.2 _ (List.head_mem hne)

theorem rect_getD_mem {p : Pattern} {R C : ℕ} (h : Rect p R C) {i : ℕ}
    (hi : i < R) : (p.getD i []).length = C := by
  have hi' : i < p.length := by rw [h.1]; exact hi
  rw [getD_eq_getElem p [] i hi']
  exact h.2 _ (List.getElem_mem hi')

theorem rect_rotatePattern {p : Pattern} {R C : ℕ} (h : Rect p R C)
    (hR : 0 < R) : Rect (rotatePattern p) C R := by
  constructor
  · rw [rotatePattern_length, rect_headD h hR]
  · intro r hr
    simp only [rotatePattern] at hr
    obtain ⟨j, hj, rfl⟩ := List.mem_map.mp hr
    simp [h.1]

theorem rect_rotatePattern_entry {p : Pattern} {R C : ℕ} (h : Rect p R C)
    (hR : 0 < R) {j k : ℕ} (hj : j < C) (hk : k < R) :
    ((rotatePattern p).getD j []).getD k 0 =
      (p.getD (R - 1 - k) []).getD j 0 := by
  have hj' : j < (p.headD []).length := by rw [rect_headD h hR]; exact hj
  have hk' : k < p.length := by rw [h.1]; exact hk
  rw [rotatePattern_entry p j k hj' hk', h.1]

theorem rot2_entry {p : Pattern} {R C : ℕ} (h : Rect p R C)
    (hR : 0 < R) (hC : 0 < C) {j k : ℕ} (hj : j < R) (hk : k < C) :
    ((rotatePattern (rotatePattern p)).getD j []).getD k 0 =
      (p.getD (R - 1 - j) []).getD (C - 1 - k) 0 := by
  have h1 : Rect (rotatePattern p) C R := rect_rotatePattern h hR
  rw [rect_rotatePattern_entry h1 hC hj hk]
  have hck : C - 1 - k < C := by omega
  rw [rect_rotatePattern_entry h hR hck hj]

theorem rect_rot2 {p : Pattern} {R C : ℕ} (h : Rect p R C)
    (hR : 0 < R) (hC : 0 < C) :
    Rect (rotatePattern (rotatePattern p)) R C :=
  rect_rotatePattern (rect_rotatePattern h hR) hC

/-- Claim C5: for every rectangular R x C pattern P with R > 0, rotate(P) is
a C x R matrix and rotate(P)[j][R-1-i] = P[i][j] for all i < R, j < C
(the no-mutation part of the claim is immediate in a pure embedding). -/
theorem c5_rotation_law (p : Pattern) (R C : ℕ) (hrect : Rect p R C)
    (hR : 0 < R) :
    Rect (rotatePattern p) C R ∧
    ∀ i j, i < R → j < C →
      ((rotatePattern p).getD j []).getD (R - 1 - i) 0 =
        (p.getD i []).getD j 0 := by
  refine ⟨rect_rotatePattern hrect hR, ?_⟩
  intro i j hi hj
  have hk : R - 1 - i < R := by omega
  rw [rect_rotatePattern_entry hrect hR hj hk]
  congr 2
  omega

/-- Witness for C5 at the concrete 3 x 2 pattern [[1,0],[0,1],[1,1]]. -/
theorem c5_rotation_law_witness :
    Rect (rotatePattern [[1,0],[0,1],[1,1]]) 2 3 ∧
    ((rotatePattern [[1,0],[0,1],[1,1]]).getD 0 []).getD 2 0 = 1 := by
  have h := c5_rotation_law [[1,0],[0,1],[1,1]] 3 2
    (by constructor <;> decide) (by decide)
  refine ⟨h.1, ?_⟩
  have := h.2 0 0 (by decide) (by decide)
  simpa using this

/-- Claim C6: applying rotate four times to a rectangular non-empty pattern
returns a pattern equal to the original. -/
theorem c6_rotation_cycle (p : Pattern) (R C : ℕ) (hrect : Rect p R C)
    (hR : 0 < R) (hC : 0 < C) :
    rotatePattern (rotatePattern (rotatePattern (rotatePattern p))) = p := by
  have h2 : Rect (rotatePattern (rotatePattern p)) R C := rect_rot2 hrect hR hC
  have h4 : Rect (rotatePattern (rotatePattern
      (rotatePattern (rotatePattern p)))) R C := rect_rot2 h2 hR hC
  apply pattern_ext
  · rw [h4.1, hrect.1]
  · intro i hi
    have hi' : i < R := by rw [h4.1] at hi; exact hi
    rw [rect_getD_mem h4 hi', rect_getD_mem hrect hi']
  · intro i j hi hj
    have hi' : i < R := by rw [h4.1] at hi; exact hi
    have hj' : j < C := by rw [rect_getD_mem h4 hi'] at hj; exact hj
    rw [rot2_entry h2 hR hC hi' hj']
    have hri : R - 1 - i < R := by omega
    have hcj : C - 1 - j < C := by omega
    rw [rot2_entry hrect hR hC hri hcj]
    have e1 : R - 1 - (R - 1 - i) = i := by omega
    have e2 : C - 1 - (C - 1 - j) = j := by omega
    rw [e1, e2]

/-- Witness for C6 at the concrete 3 x 2 pattern [[1,0],[0,1],[1,1]]. -/
theorem c6_rotation_cycle_witness :
    rotatePattern (rotatePattern (rotatePattern
      (rotatePattern [[1,0],[0,1],[1,1]]))) = [[1,0],[0,1],[1,1]] :=
  c6_rotation_cycle [[1,0],[0,1],[1,1]] 3 2
    (by constructor <;> decide) (by decide) (by decide)

theorem handleDrop_none_offset (em : Bool) (rows cols : ℕ) (S G : ℤ)
    (item : DragItem) (rl rt : ℤ) (fid : String) (st : GridState) :
    handleDrop em rows cols S G item none rl rt fid st = st := rfl

theorem handleDrop_no_pattern (em : Bool) (rows cols : ℕ) (S G : ℤ)
    (item : DragItem) (off : Option (ℤ × ℤ)) (rl rt : ℤ) (fid : String)
    (st : GridState) (h : item.pattern = none) :
    handleDrop em rows cols S G item off rl rt fid st = st := by
  obtain ⟨pat, po, pid, ty, co⟩ := item
  simp only at h
  subst h
  cases off <;> rfl

theorem handleDrop_empty_pattern (em : Bool) (rows cols : ℕ) (S G : ℤ)
    (item : DragItem) (off : Option (ℤ × ℤ)) (rl rt : ℤ) (fid : String)
    (st : GridState) (h : item.pattern = some []) :
    handleDrop em rows cols S G item off rl rt fid st = st := by
  obtain ⟨pat, po, pid, ty, co⟩ := item
  simp only at h
  subst h
  cases off <;> rfl

theorem handleDrop_place_reject (rows cols : ℕ) (S G : ℤ) (item : DragItem)
    (off0 : ℤ × ℤ) (rl rt : ℤ) (fid : String) (st : GridState)
    (pattern : Pattern) (hpat : item.pattern = some pattern)
    (hlen : pattern.length ≠ 0)
    (hval : placementValid rows cols pattern
        (dropOrigin S G pattern item.pointerOffset off0 rl rt).1
        (dropOrigin S G pattern item.pointerOffset off0 rl rt).2 = false) :
    handleDrop false rows cols S G item (some off0) rl rt fid st = st := by
  obtain ⟨pat, po, pid, ty, co⟩ := item
  simp only at hpat hval ⊢
  subst hpat
  simp only [handleDrop]
  rw [if_neg hlen]
  simp only [Bool.false_eq_true, if_false]
  rw [if_neg (by simp [hval])]

theorem handleDrop_place_accept (rows cols : ℕ) (S G : ℤ) (item : DragItem)
    (off0 : ℤ × ℤ) (rl rt : ℤ) (fid : String) (st : GridState)
    (pattern : Pattern) (hpat : item.pattern = some pattern)
    (hlen : pattern.length ≠ 0)
    (hval : placementValid rows cols pattern
        (dropOrigin S G pattern item.pointerOffset off0 rl rt).1
        (dropOrigin S G pattern item.pointerOffset off0 rl rt).2 = true) :
    handleDrop false rows cols S G item (some off0) rl rt fid st =
      { st with pieces :=
          st.pieces.filter (keepPiece item.pieceId) ++
            [newPieceOf item pattern
              (dropOrigin S G pattern item.pointerOffset off0 rl rt) fid st] } := by
  obtain ⟨pat, po, pid, ty, co⟩ := item
  simp only at hpat hval ⊢
  subst hpat
  simp only [handleDrop]
  rw [if_neg hlen]
  simp only [Bool.false_eq_true, if_false]
  rw [if_pos (by simp [hval])]

/-- Claim C1: in placement mode the block index on each axis is
floor(grabOffset / (S+G)) clamped to [0, extent-1], the origin cell on each
axis is round((pointer - containerOrigin - P) / (S+G)) - blockIndex with
P = G + 3 (= 8 for G = 5), and with S = 30, G = 5, P = 8 a 2x1 vertical
piece grabbed at pixel offset (10,40) and released at grid-relative
position (50,90) is placed at origin row 2, column 1. -/
theorem c1_geometry_mapping :
    (∀ offset SG : ℤ, ∀ extent : ℕ, 1 ≤ extent →
      blockIndex offset SG extent =
        max 0 (min ((extent : ℤ) - 1) (jsFloorDiv offset SG))) ∧
    (∀ pointer rectOrigin padding SG blockIdx : ℤ,
      originAxis pointer rectOrigin padding SG blockIdx =
        jsRoundDiv (pointer - rectOrigin - padding) SG - blockIdx) ∧
    (handleDrop false 5 5 30 5
        ⟨some [[1],[1]], some (10, 40), none, "t", "c"⟩
        (some (58, 98)) 0 0 "f" initialState).pieces.map
          (fun p => (p.row, p.col)) = [(2, 1)] := by
  refine ⟨?_, fun _ _ _ _ _ => rfl, by decide⟩
  intro offset SG extent he
  have he' : (1 : ℤ) ≤ (extent : ℤ) := by exact_mod_cast he
  simp only [blockIndex]
  set b := jsFloorDiv offset SG with hb
  split_ifs <;> omega

/-- Witness for C1 at the grab offset 40, cell pitch 35 and a two-row
pattern; the concrete placement conjunct is already closed. -/
theorem c1_geometry_mapping_witness :
    blockIndex 40 35 2 = max 0 (min 1 (jsFloorDiv 40 35)) :=
  c1_geometry_mapping.1 40 35 2 (by decide)

/-- Claim C2 counterexample: on a 5x5 grid, the piece p placed at (0,0)
with pattern [[1,1]] is dragged and released over the grid target at a
position mapping to origin (0,4); the validator rejects that origin, yet
the drag-end path does not remove the piece: the state is completely
unchanged, so neither terminal operation had any effect, contradicting the
claim that a validator-rejected drop leads to removal. -/
theorem c2_counterexample :
    placementValid 5 5 [[1,1]] 0 4 = false ∧
    dropOrigin 30 5 [[1,1]] (some (0, 0)) (148, 8) 0 0 = (0, 4) ∧
    dragEnd true false 5 5 30 5 ⟨some [[1,1]], some (0, 0), some "p", "t", "c"⟩
        (some (148, 8)) 0 0 "f"
        ⟨[⟨"p", "t", [[1,1]], [[1,1]], "c", 0, 0, 0⟩], [], [], []⟩ =
      ⟨[⟨"p", "t", [[1,1]], [[1,1]], "c", 0, 0, 0⟩], [], [], []⟩ := by
  refine ⟨by decide, by decide, by decide⟩

/-- Claim C2 amended: at drag end exactly one handler runs. When the
release is not over the grid target the dragged piece (the item pieceId) is
removed; when it is over the target only the place handler (handleDrop)
runs, and if the Placement Validator rejects the computed origin that
handler is a silent no-op: the state is unchanged and in particular the
dragged piece is not removed. -/
theorem c2_drag_end_amended (em : Bool) (rows cols : ℕ) (S G : ℤ)
    (item : DragItem) (off : Option (ℤ × ℤ)) (rl rt : ℤ) (fid : String)
    (st : GridState) :
    (∀ pid, item.pieceId = some pid →
      pid ∉ (dragEnd false em rows cols S G item off rl rt fid st).pieces.map
        Piece.id) ∧
    (dragEnd true em rows cols S G item off rl rt fid st =
      handleDrop em rows cols S G item off rl rt fid st) ∧
    (∀ off0 pattern, off = some off0 → item.pattern = some pattern →
      pattern.length ≠ 0 →
      placementValid rows cols pattern
          (dropOrigin S G pattern item.pointerOffset off0 rl rt).1
          (dropOrigin S G pattern item.pointerOffset off0 rl rt).2 = false →
      dragEnd true false rows cols S G item off rl rt fid st = st) := by
  refine ⟨?_, rfl, ?_⟩
  · intro pid hpid hmem
    simp only [dragEnd, if_neg (by simp : ¬ (false = true)), hpid,
      removePiece] at hmem
    obtain ⟨p, hp, hpe⟩ := List.mem_map.mp hmem
    have := List.of_mem_filter hp
    simp at this
    exact this hpe
  · intro off0 pattern hoff hpat hlen hval
    subst hoff
    have h2 : dragEnd true false rows cols S G item (some off0) rl rt fid st =
        handleDrop false rows cols S G item (some off0) rl rt fid st := rfl
    rw [h2, handleDrop_place_reject rows cols S G item off0 rl rt fid st
      pattern hpat hlen hval]

/-- Witness for C2 amended: a no-drop end removes the dragged piece, and a
validator-rejected on-target drop leaves the concrete state unchanged. -/
theorem c2_drag_end_amended_witness :
    ("p" ∉ (dragEnd false false 5 5 30 5
        ⟨some [[1,1]], some (0, 0), some "p", "t", "c"⟩ (some (148, 8)) 0 0 "f"
        ⟨[⟨"p", "t", [[1,1]], [[1,1]], "c", 0, 0, 0⟩], [], [], []⟩).pieces.map
          Piece.id) ∧
    dragEnd true false 5 5 30 5
        ⟨some [[1,1]], some (0, 0), some "p", "t", "c"⟩ (some (148, 8)) 0 0 "f"
        ⟨[⟨"p", "t", [[1,1]], [[1,1]], "c", 0, 0, 0⟩], [], [], []⟩ =
      ⟨[⟨"p", "t", [[1,1]], [[1,1]], "c", 0, 0, 0⟩], [], [], []⟩ := by
  have h := c2_drag_end_amended false 5 5 30 5
    ⟨some [[1,1]], some (0, 0), some "p", "t", "c"⟩ (some (148, 8)) 0 0 "f"
    ⟨[⟨"p", "t", [[1,1]], [[1,1]], "c", 0, 0, 0⟩], [], [], []⟩
  exact ⟨h.1 "p" rfl, h.2.2 (148, 8) [[1,1]] rfl rfl (by decide) (by decide)⟩

/-- Claim C3 counterexample: a drop whose pattern is structurally valid and
whose footprint lies fully inside the 5x5 grid (the validator accepts the
origin (0,0)), yet which changes no collection: the existing piece p is
re-dropped at its current origin with identical data, so the resulting
state equals the prior state. This refutes the only-if direction of the
claimed equivalence (silent no-op iff invalid-or-out-of-bounds). -/
theorem c3_counterexample :
    placementValid 5 5 [[1]] 0 0 = true ∧
    dropOrigin 30 5 [[1]] (some (0, 0)) (8, 8) 0 0 = (0, 0) ∧
    handleDrop false 5 5 30 5 ⟨some [[1]], some (0, 0), some "p", "t", "c"⟩
        (some (8, 8)) 0 0 "f"
        ⟨[⟨"p", "t", [[1]], [[1]], "c", 0, 0, 0⟩], [], [], []⟩ =
      ⟨[⟨"p", "t", [[1]], [[1]], "c", 0, 0, 0⟩], [], [], []⟩ := by
  refine ⟨by decide, by decide, by decide⟩

/-- Claim C3 amended: a placement-mode drop leaves the state unchanged
whenever the pattern is missing, or the pattern is empty, or some set cell
of the footprint falls outside [0,rows) x [0,cols); overlap with already
placed pieces never causes rejection (the acceptance condition and the
accept effect below hold for every prior piece collection); when the
pattern is valid and the footprint is in bounds the dropped piece is
placed at the computed origin and the wall, marker and mini collections
are untouched. The converse direction of the original claim (a state left
unchanged implies invalid-or-out-of-bounds) is false, as the
counterexample shows: a valid re-drop of an existing piece at its current
origin with identical data also leaves the state equal. On a 5x5 grid a
1x2 horizontal pattern is rejected at origin (0,4) and accepted at origin
(0,3). -/
theorem c3_drop_noop_amended (rows cols : ℕ) (S G : ℤ) (item : DragItem)
    (off0 : ℤ × ℤ) (rl rt : ℤ) (fid : String) (st : GridState) :
    (item.pattern = none →
      ∀ off, handleDrop false rows cols S G item off rl rt fid st = st) ∧
    (item.pattern = some [] →
      ∀ off, handleDrop false rows cols S G item off rl rt fid st = st) ∧
    (∀ pattern, item.pattern = some pattern → pattern.length ≠ 0 →
      placementValid rows cols pattern
          (dropOrigin S G pattern item.pointerOffset off0 rl rt).1
          (dropOrigin S G pattern item.pointerOffset off0 rl rt).2 = false →
      handleDrop false rows cols S G item (some off0) rl rt fid st = st) ∧
    (∀ pattern, item.pattern = some pattern → pattern.length ≠ 0 →
      placementValid rows cols pattern
          (dropOrigin S G pattern item.pointerOffset off0 rl rt).1
          (dropOrigin S G pattern item.pointerOffset off0 rl rt).2 = true →
      (let st' := handleDrop false rows cols S G item (some off0) rl rt fid st
       st'.walls = st.walls ∧ st'.markedCells = st.markedCells ∧
       st'.cellMinis = st.cellMinis ∧
       ∃ p, p ∈ st'.pieces ∧ p.pattern = pattern ∧
         p.row = (dropOrigin S G pattern item.pointerOffset off0 rl rt).1 ∧
         p.col = (dropOrigin S G pattern item.pointerOffset off0 rl rt).2 ∧
         p.color = item.color)) ∧
    placementValid 5 5 [[1, 1]] 0 4 = false ∧
    placementValid 5 5 [[1, 1]] 0 3 = true := by
  refine ⟨?_, ?_, ?_, ?_, by decide, by decide⟩
  · intro hpat off
    exact handleDrop_no_pattern false rows cols S G item off rl rt fid st hpat
  · intro hpat off
    exact handleDrop_empty_pattern false rows cols S G item off rl rt fid st hpat
  · intro pattern hpat hlen hval
    exact handleDrop_place_reject rows cols S G item off0 rl rt fid st
      pattern hpat hlen hval
  · intro pattern hpat hlen hval
    rw [handleDrop_place_accept rows cols S G item off0 rl rt fid st
      pattern hpat hlen hval]
    refine ⟨rfl, rfl, rfl,
      newPieceOf item pattern
        (dropOrigin S G pattern item.pointerOffset off0 rl rt) fid st,
      ?_, rfl, rfl, rfl, rfl⟩
    simp [List.mem_append]

/-- Witness for C3 amended: a drop carrying no pattern is a no-op on the
cleared grid, and the concrete accepted drop of a fresh 1x2 piece lands at
origin (0,3) of a 5x5 grid. -/
theorem c3_drop_noop_amended_witness :
    (handleDrop false 5 5 30 5 ⟨none, some (0, 0), none, "t", "c"⟩
        (some (8, 8)) 0 0 "f" initialState = initialState) ∧
    ∃ p, p ∈ (handleDrop false 5 5 30 5
        ⟨some [[1, 1]], some (0, 0), none, "t", "c"⟩
        (some (113, 8)) 0 0 "f" initialState).pieces ∧
      p.pattern = [[1, 1]] ∧ p.row = 0 ∧ p.col = 3 ∧ p.color = "c" := by
  constructor
  · exact (c3_drop_noop_amended 5 5 30 5
      ⟨none, some (0, 0), none, "t", "c"⟩ (8, 8) 0 0 "f" initialState).1
      rfl (some (8, 8))
  · have h := (c3_drop_noop_amended 5 5 30 5
      ⟨some [[1, 1]], some (0, 0), none, "t", "c"⟩ (113, 8) 0 0 "f"
      initialState).2.2.2.1 [[1, 1]] rfl (by decide) (by decide)
    obtain ⟨-, -, -, p, hp, h1, h2, h3, h4⟩ := h
    exact ⟨p, hp, h1, by rw [h2]; decide, by rw [h3]; decide, h4⟩

theorem handleDrop_pieces (em : Bool) (rows cols : ℕ) (S G : ℤ)
    (item : DragItem) (off : Option (ℤ × ℤ)) (rl rt : ℤ) (fid : String)
    (st : GridState) :
    (handleDrop em rows cols S G item off rl rt fid st).pieces = st.pieces ∨
    ∃ pattern rc, item.pattern = some pattern ∧
      (handleDrop em rows cols S G item off rl rt fid st).pieces =
        st.pieces.filter (keepPiece item.pieceId) ++
          [newPieceOf item pattern rc fid st] := by
  obtain ⟨pat, po, pid, ty, co⟩ := item
  cases off with
  | none => exact Or.inl rfl
  | some off0 =>
    cases pat with
    | none => exact Or.inl rfl
    | some pattern =>
      by_cases hlen : pattern.length = 0
      · left
        simp only [handleDrop]
        rw [if_pos hlen]
      · simp only [handleDrop]
        rw [if_neg hlen]
        cases em with
        | true =>
          left
          split
          · split <;> rfl
          · next hfalse => exact absurd rfl hfalse
        | false =>
          simp only [Bool.false_eq_true, if_false]
          split
          · right
            exact ⟨pattern, _, rfl, rfl⟩
          · left
            rfl

theorem rotatePiece_ids (pid : String) (st : GridState) :
    (rotatePiece pid st).pieces.map Piece.id = st.pieces.map Piece.id := by
  simp only [rotatePiece, List.map_map]
  congr 1
  funext p
  by_cases h : p.id = pid <;> simp [h]

theorem toggleWall_pieces (wid : String) (st : GridState) :
    (toggleWall wid st).pieces = st.pieces := by
  unfold toggleWall
  split <;> rfl

theorem toggleMarkedCell_pieces (cid : Cell) (st : GridState) :
    (toggleMarkedCell cid st).pieces = st.pieces := by
  unfold toggleMarkedCell
  split
  · rfl
  · split <;> rfl

theorem newPieceOf_id (item : DragItem) (pattern : Pattern) (rc : ℤ × ℤ)
    (fid : String) (st : GridState) (pid : String)
    (h : item.pieceId = some pid) :
    (newPieceOf item pattern rc fid st).id = pid := by
  simp [newPieceOf, h]

theorem place_ids_nodup (st : GridState) (item : DragItem)
    (pattern : Pattern) (rc : ℤ × ℤ) (fid : String)
    (hnd : (st.pieces.map Piece.id).Nodup)
    (hfresh : item.pieceId = none → fid ∉ st.pieces.map Piece.id) :
    ((st.pieces.filter (keepPiece item.pieceId) ++
      [newPieceOf item pattern rc fid st]).map Piece.id).Nodup := by
  rw [List.map_append]
  have hsub : ((st.pieces.filter (keepPiece item.pieceId)).map Piece.id).Sublist
      (st.pieces.map Piece.id) :=
    (List.filter_sublist st.pieces).map Piece.id
  have hnd' := hnd.sublist hsub
  rw [List.nodup_append]
  refine ⟨hnd', List.nodup_singleton _, ?_⟩
  intro x hx
  obtain ⟨p, hp, rfl⟩ := List.mem_map.mp hx
  simp only [List.map_cons, List.map_nil, List.mem_singleton]
  intro hxe
  cases hid : item.pieceId with
  | some pid =>
    have hk := List.of_mem_filter hp
    rw [hid] at hk
    simp only [keepPiece, decide_eq_true_eq] at hk
    rw [newPieceOf_id item pattern rc fid st pid hid] at hxe
    exact hk hxe
  | none =>
    have hfid : (newPieceOf item pattern rc fid st).id = fid := by
      simp [newPieceOf, hid]
    rw [hfid] at hxe
    apply hfresh hid
    rw [← hxe]
    exact List.mem_map_of_mem Piece.id (List.mem_of_mem_filter hp)

theorem reachable_ids_nodup (st : GridState) (h : Reachable st) :
    (st.pieces.map Piece.id).Nodup := by
  induction h with
  | init => simp [initialState]
  | drop st em rows cols S G item off rl rt fid h hfresh ih =>
    rcases handleDrop_pieces em rows cols S G item off rl rt fid st with
      heq | ⟨pattern, rc, hpat, heq⟩
    · rw [heq]; exact ih
    · rw [heq]; exact place_ids_nodup st item pattern rc fid ih hfresh
  | removeP st pid h ih =>
    exact ih.sublist ((List.filter_sublist st.pieces).map Piece.id)
  | rotateP st pid h ih => rw [rotatePiece_ids]; exact ih
  | wall st wid h ih => rw [toggleWall_pieces]; exact ih
  | mark st cid h ih => rw [toggleMarkedCell_pieces]; exact ih
  | clear st h ih => simp [initialState]

theorem find?_of_nodup_ids (l : List Piece) (pid : String) (p : Piece)
    (hnd : (l.map Piece.id).Nodup) (hp : p ∈ l) (hid : p.id = pid) :
    l.find? (fun q => decide (q.id = pid)) = some p := by
  induction l with
  | nil => cases hp
  | cons a t ih =>
    rw [List.map_cons, List.nodup_cons] at hnd
    rcases List.mem_cons.mp hp with rfl | hpt
    · rw [List.find?_cons_of_pos _ (by simp [hid])]
    · have hane : a.id ≠ pid := by
        intro hae
        apply hnd.1
        rw [hae, ← hid]
        exact List.mem_map_of_mem Piece.id hpt
      rw [List.find?_cons_of_neg _ (by simp [hane])]
      exact ih hnd.2 hpt

/-- Claim C4: in every reachable state each piece identity occurs at most
once in the piece collection, and a valid placement-mode drop whose item
carries the pieceId of an existing piece leaves exactly one piece with that
identity, with the originalPattern and rotation of the existing piece
preserved, at the newly computed origin (no overlap condition appears
anywhere, so this holds even when the new footprint overlaps the old). -/
theorem c4_replace_on_move (st : GridState) (hr : Reachable st) :
    (st.pieces.map Piece.id).Nodup ∧
    ∀ (rows cols : ℕ) (S G : ℤ) (item : DragItem) (off0 : ℤ × ℤ)
      (rl rt : ℤ) (fid : String) (pattern : Pattern) (pid : String)
      (p : Piece),
      item.pattern = some pattern → pattern.length ≠ 0 →
      item.pieceId = some pid → p ∈ st.pieces → p.id = pid →
      placementValid rows cols pattern
          (dropOrigin S G pattern item.pointerOffset off0 rl rt).1
          (dropOrigin S G pattern item.pointerOffset off0 rl rt).2 = true →
      (((handleDrop false rows cols S G item (some off0) rl rt fid
          st).pieces.map Piece.id).count pid = 1 ∧
       ∀ q ∈ (handleDrop false rows cols S G item (some off0) rl rt fid
          st).pieces, q.id = pid →
         q.originalPattern = p.originalPattern ∧ q.rotation = p.rotation ∧
         q.pattern = pattern ∧
         q.row = (dropOrigin S G pattern item.pointerOffset off0 rl rt).1 ∧
         q.col = (dropOrigin S G pattern item.pointerOffset off0 rl rt).2) := by
  have hnd := reachable_ids_nodup st hr
  refine ⟨hnd, ?_⟩
  intro rows cols S G item off0 rl rt fid pattern pid p
  intro hpat hlen hpid hpmem hpi hval
  rw [handleDrop_place_accept rows cols S G item off0 rl rt fid st
    pattern hpat hlen hval]
  have hfind : existingPiece (some pid) st.pieces = some p := by
    simp only [existingPiece]
    exact find?_of_nodup_ids st.pieces pid p hnd hpmem hpi
  have hnew : newPieceOf item pattern
      (dropOrigin S G pattern item.pointerOffset off0 rl rt) fid st =
      { id := pid, type := item.type, pattern := pattern,
        originalPattern := p.originalPattern, color := item.color,
        row := (dropOrigin S G pattern item.pointerOffset off0 rl rt).1,
        col := (dropOrigin S G pattern item.pointerOffset off0 rl rt).2,
        rotation := p.rotation } := by
    simp [newPieceOf, hpid, hfind]
  constructor
  · rw [List.map_append, List.count_append]
    have hz : ((st.pieces.filter (keepPiece item.pieceId)).map
        Piece.id).count pid = 0 := by
      rw [List.count_eq_zero]
      intro hmem
      obtain ⟨q, hq, hqe⟩ := List.mem_map.mp hmem
      have hk := List.of_mem_filter hq
      rw [hpid] at hk
      simp only [keepPiece, decide_eq_true_eq] at hk
      exact hk hqe
    rw [hz, hnew]
    simp
  · intro q hq hqid
    rcases List.mem_append.mp hq with hq1 | hq2
    · exfalso
      have hk := List.of_mem_filter hq1
      rw [hpid] at hk
      simp only [keepPiece, decide_eq_true_eq] at hk
      exact hk hqid
    · rw [List.mem_singleton] at hq2
      rw [hq2, hnew]
      exact ⟨rfl, rfl, rfl, rfl, rfl⟩

/-- Witness for C4: the cleared grid receives a fresh piece p via a drop,
then p is moved by a second drop to the (overlapping) origin (0,1);
afterwards exactly one piece with identity p exists. -/
theorem c4_replace_on_move_witness :
    (((handleDrop false 5 5 30 5 ⟨some [[1]], some (0, 0), some "p", "t", "c"⟩
        (some (43, 8)) 0 0 "g"
        (handleDrop false 5 5 30 5 ⟨some [[1]], some (0, 0), none, "t", "c"⟩
          (some (8, 8)) 0 0 "p" initialState)).pieces.map Piece.id).count
      "p") = 1 := by
  have hr : Reachable (handleDrop false 5 5 30 5
      ⟨some [[1]], some (0, 0), none, "t", "c"⟩ (some (8, 8)) 0 0 "p"
      initialState) :=
    Reachable.drop initialState false 5 5 30 5
      ⟨some [[1]], some (0, 0), none, "t", "c"⟩ (some (8, 8)) 0 0 "p"
      Reachable.init (fun _ => by simp [initialState])
  have h := (c4_replace_on_move _ hr).2 5 5 30 5
    ⟨some [[1]], some (0, 0), some "p", "t", "c"⟩ (43, 8) 0 0 "g" [[1]] "p"
    ⟨"p", "t", [[1]], [[1]], "c", 0, 0, 0⟩ rfl (by decide) rfl (by decide)
    rfl (by decide)
  exact h.1

theorem find?_eq_head?_filter {α : Type} (l : List α) (p : α → Bool) :
    l.find? p = (l.filter p).head? := by
  induction l with
  | nil => rfl
  | cons a t ih =>
    by_cases h : p a = true
    · rw [List.find?_cons_of_pos _ h, List.filter_cons_of_pos h]
      rfl
    · rw [List.find?_cons_of_neg _ (by simpa using h),
        List.filter_cons_of_neg (by simpa using h)]
      exact ih

/-- Claim C8: the displayed cell color equals the color of the most
recently placed covering piece (reverse placement order, first match wins),
the covering test is exactly a set pattern cell offset by the piece origin,
and in the concrete fully-overlapping example the later piece B wins. -/
theorem c8_cell_color :
    (∀ pieces (row col : ℤ), getCellColor pieces row col =
      topmostCoveringColor pieces row col) ∧
    (∀ (p : Piece) (row col : ℤ), pieceCovers p row col = true ↔
      ∃ r c, r < p.pattern.length ∧ c < (p.pattern.getD r []).length ∧
        (p.pattern.getD r []).getD c 0 ≠ 0 ∧
        p.row + (r : ℤ) = row ∧ p.col + (c : ℤ) = col) ∧
    getCellColor [⟨"a", "t", [[1]], [[1]], "ca", 0, 0, 0⟩,
                  ⟨"b", "t", [[1]], [[1]], "cb", 0, 0, 0⟩] 0 0 = some "cb" := by
  refine ⟨?_, ?_, by decide⟩
  · intro pieces row col
    rw [getCellColor, topmostCoveringColor,
      find?_eq_head?_filter, List.filter_reverse, List.head?_reverse]
  · intro p row col
    rw [pieceCovers]
    simp only [List.any_eq_true, List.mem_range, decide_eq_true_eq,
      Bool.and_eq_true]
    constructor
    · rintro ⟨r, hr, c, hc, ⟨h1, h2⟩, h3⟩
      exact ⟨r, c, hr, hc, h1, h2, h3⟩
    · rintro ⟨r, c, hr, hc, h1, h2, h3⟩
      exact ⟨r, hr, c, hc, ⟨h1, h2⟩, h3⟩

theorem handleDrop_edition_accept (rows cols : ℕ) (S G : ℤ)
    (item : DragItem) (off0 : ℤ × ℤ) (rl rt : ℤ) (fid : String)
    (st : GridState) (pattern : Pattern)
    (hpat : item.pattern = some pattern) (hlen : pattern.length ≠ 0)
    (hb : ¬((editionCell S G off0 rl rt).2 < 0 ∨
      (editionCell S G off0 rl rt).2 ≥ (cols : ℤ) ∨
      (editionCell S G off0 rl rt).1 < 0 ∨
      (editionCell S G off0 rl rt).1 ≥ (rows : ℤ))) :
    handleDrop true rows cols S G item (some off0) rl rt fid st =
      { st with
        cellMinis := (editionCell S G off0 rl rt, Mini.mk pattern item.color) ::
          st.cellMinis.filter
            (fun q => decide (q.1 ≠ editionCell S G off0 rl rt)),
        markedCells := st.markedCells.filter
          (fun c => decide (c ≠ editionCell S G off0 rl rt)) } := by
  obtain ⟨pat, po, pid, ty, co⟩ := item
  simp only at hpat ⊢
  subst hpat
  simp only [handleDrop]
  rw [if_neg hlen, if_pos trivial, if_neg hb]

theorem handleDrop_marks_minis (em : Bool) (rows cols : ℕ) (S G : ℤ)
    (item : DragItem) (off : Option (ℤ × ℤ)) (rl rt : ℤ) (fid : String)
    (st : GridState) :
    ((handleDrop em rows cols S G item off rl rt fid st).markedCells =
        st.markedCells ∧
     (handleDrop em rows cols S G item off rl rt fid st).cellMinis =
        st.cellMinis) ∨
    ∃ cell mini,
      (handleDrop em rows cols S G item off rl rt fid st).markedCells =
        st.markedCells.filter (fun c => decide (c ≠ cell)) ∧
      (handleDrop em rows cols S G item off rl rt fid st).cellMinis =
        (cell, mini) :: st.cellMinis.filter (fun q => decide (q.1 ≠ cell)) := by
  obtain ⟨pat, po, pid, ty, co⟩ := item
  cases off with
  | none => exact Or.inl ⟨rfl, rfl⟩
  | some off0 =>
    cases pat with
    | none => exact Or.inl ⟨rfl, rfl⟩
    | some pattern =>
      by_cases hlen : pattern.length = 0
      · left
        simp only [handleDrop]
        rw [if_pos hlen]
        exact ⟨rfl, rfl⟩
      · simp only [handleDrop]
        rw [if_neg hlen]
        cases em with
        | true =>
          split
          · split
            · exact Or.inl ⟨rfl, rfl⟩
            · right
              exact ⟨_, _, rfl, rfl⟩
          · next hfalse => exact absurd rfl hfalse
        | false =>
          simp only [Bool.false_eq_true, if_false]
          split <;> exact Or.inl ⟨rfl, rfl⟩

theorem reachable_exclusive (st : GridState) (h : Reachable st) :
    MarkMiniExclusive st := by
  induction h with
  | init => intro cid hc; simp [initialState] at hc
  | drop st em rows cols S G item off rl rt fid h hfresh ih =>
    rcases handleDrop_marks_minis em rows cols S G item off rl rt fid st with
      ⟨h1, h2⟩ | ⟨cell, mini, h1, h2⟩
    · intro cid hc q hq
      rw [h1] at hc
      rw [h2] at hq
      exact ih cid hc q hq
    · intro cid hc q hq
      rw [h1] at hc
      have hcne : cid ≠ cell := by
        have := List.of_mem_filter hc
        simpa using this
      have hcmem := List.mem_of_mem_filter hc
      rw [h2] at hq
      rcases List.mem_cons.mp hq with rfl | hq2
      · simpa using hcne.symm
      · exact ih cid hcmem q (List.mem_of_mem_filter hq2)
  | removeP st pid h ih => exact ih
  | rotateP st pid h ih => exact ih
  | wall st wid h ih => exact ih
  | mark st cid0 h ih =>
    unfold toggleMarkedCell
    by_cases hm : st.cellMinis.any (fun q => decide (q.1 = cid0)) = true
    · rw [if_pos hm]
      intro cid hc q hq
      exact ih cid hc q (List.mem_of_mem_filter hq)
    · rw [if_neg hm]
      intro cid hc q hq
      by_cases hin : cid0 ∈ st.markedCells
      · rw [if_pos hin] at hc
        exact ih cid (List.mem_of_mem_filter hc) q hq
      · rw [if_neg hin] at hc
        rcases List.mem_cons.mp hc with rfl | hc2
        · intro hqe
          apply hm
          rw [List.any_eq_true]
          exact ⟨q, hq, by simpa using hqe⟩
        · exact ih cid hc2 q hq
  | clear st h ih => intro cid hc; simp [initialState] at hc

/-- Claim C9: in every reachable state no cell is both marked and holding a
mini; toggling a mark at a cell with a mini removes the mini and leaves the
marker set untouched (and a subsequent toggle at the now-empty cell sets
the marker); toggling at a cell without a mini flips marker membership; and
an edition-mode drop of a mini inserts/overwrites the mini at the mapped
cell and removes any marker there. -/
theorem c9_mark_mini_exclusion (st : GridState) (cid : Cell) :
    (Reachable st → MarkMiniExclusive st) ∧
    (st.cellMinis.any (fun q => decide (q.1 = cid)) = true →
      (toggleMarkedCell cid st).markedCells = st.markedCells ∧
      (∀ q ∈ (toggleMarkedCell cid st).cellMinis, q.1 ≠ cid) ∧
      (Reachable st →
        cid ∈ (toggleMarkedCell cid (toggleMarkedCell cid st)).markedCells)) ∧
    (st.cellMinis.any (fun q => decide (q.1 = cid)) = false →
      (cid ∈ (toggleMarkedCell cid st).markedCells ↔
        cid ∉ st.markedCells)) ∧
    (∀ (rows cols : ℕ) (S G : ℤ) (item : DragItem) (off0 : ℤ × ℤ)
      (rl rt : ℤ) (fid : String) (pattern : Pattern),
      item.pattern = some pattern → pattern.length ≠ 0 →
      ¬((editionCell S G off0 rl rt).2 < 0 ∨
        (editionCell S G off0 rl rt).2 ≥ (cols : ℤ) ∨
        (editionCell S G off0 rl rt).1 < 0 ∨
        (editionCell S G off0 rl rt).1 ≥ (rows : ℤ)) →
      (editionCell S G off0 rl rt, Mini.mk pattern item.color) ∈
        (handleDrop true rows cols S G item (some off0) rl rt fid
          st).cellMinis ∧
      (∀ q ∈ (handleDrop true rows cols S G item (some off0) rl rt fid
          st).cellMinis, q.1 = editionCell S G off0 rl rt →
        q.2 = Mini.mk pattern item.color) ∧
      editionCell S G off0 rl rt ∉
        (handleDrop true rows cols S G item (some off0) rl rt fid
          st).markedCells) := by
  refine ⟨reachable_exclusive st, ?_, ?_, ?_⟩
  · intro hm
    have hmark : (toggleMarkedCell cid st).markedCells = st.markedCells := by
      unfold toggleMarkedCell
      rw [if_pos hm]
    have hminis : ∀ q ∈ (toggleMarkedCell cid st).cellMinis, q.1 ≠ cid := by
      unfold toggleMarkedCell
      rw [if_pos hm]
      intro q hq
      have := List.of_mem_filter hq
      simpa using this
    refine ⟨hmark, hminis, ?_⟩
    intro hr
    have hnot2 : ¬ ((toggleMarkedCell cid st).cellMinis.any
        (fun q => decide (q.1 = cid)) = true) := by
      rw [List.any_eq_true]
      rintro ⟨q, hq, hqe⟩
      exact hminis q hq (by simpa using hqe)
    have hnotin : cid ∉ st.markedCells := by
      intro hin
      obtain ⟨q, hq, hqe⟩ := List.any_eq_true.mp hm
      exact reachable_exclusive st hr cid hin q hq (by simpa using hqe)
    conv =>
      rw [toggleMarkedCell]
    rw [if_neg hnot2, hmark, if_neg hnotin]
    exact List.mem_cons_self cid _
  · intro hm
    unfold toggleMarkedCell
    rw [if_neg (by simp [hm])]
    by_cases hin : cid ∈ st.markedCells
    · rw [if_pos hin]
      constructor
      · intro hmem
        have := List.of_mem_filter hmem
        simp at this
      · intro hno
        exact absurd hin hno
    · rw [if_neg hin]
      simp [hin]
  · intro rows cols S G item off0 rl rt fid pattern hpat hlen hb
    rw [handleDrop_edition_accept rows cols S G item off0 rl rt fid st
      pattern hpat hlen hb]
    refine ⟨List.mem_cons_self _ _, ?_, ?_⟩
    · intro q hq hqe
      rcases List.mem_cons.mp hq with rfl | hq2
      · rfl
      · exfalso
        have := List.of_mem_filter hq2
        simp at this
        exact this hqe
    · intro hmem
      have := List.of_mem_filter hmem
      simp at this

/-- Witness for C9: a mini dropped in edition mode on the cleared grid at
cell (0,0); toggling the mark there twice first removes the mini, then
sets the marker. -/
theorem c9_mark_mini_exclusion_witness :
    ((0, 0) : Cell) ∈ (toggleMarkedCell (0, 0) (toggleMarkedCell (0, 0)
      (handleDrop true 5 5 30 5 ⟨some [[1]], some (0, 0), none, "t", "c"⟩
        (some (8, 8)) 0 0 "f" initialState))).markedCells := by
  have hr : Reachable (handleDrop true 5 5 30 5
      ⟨some [[1]], some (0, 0), none, "t", "c"⟩ (some (8, 8)) 0 0 "f"
      initialState) :=
    Reachable.drop initialState true 5 5 30 5
      ⟨some [[1]], some (0, 0), none, "t", "c"⟩ (some (8, 8)) 0 0 "f"
      Reachable.init (fun _ => by simp [initialState])
  exact ((c9_mark_mini_exclusion _ (0, 0)).2.1 (by decide)).2.2 hr

theorem mem_footprintCells (pattern : Pattern) (row col tr tc : ℤ) :
    (tr, tc) ∈ footprintCells pattern row col ↔
      ∃ i j : ℕ, i < pattern.length ∧ j < (pattern.getD i []).length ∧
        (pattern.getD i []).getD j 0 ≠ 0 ∧
        tr = row + (i : ℤ) ∧ tc = col + (j : ℤ) := by
  simp only [footprintCells, setPositions, List.mem_map, List.mem_flatMap,
    List.mem_filter, List.mem_range, decide_eq_true_eq, Prod.mk.injEq]
  constructor
  · rintro ⟨⟨i, j⟩, ⟨i', hi', ⟨j', ⟨hj', hne⟩, hij⟩⟩, h1, h2⟩
    obtain ⟨rfl, rfl⟩ := Prod.mk.injEq .. |>.mp hij
    exact ⟨i', j', hi', hj', hne, h1.symm, h2.symm⟩
  · rintro ⟨i, j, hi, hj, hne, rfl, rfl⟩
    exact ⟨(i, j), ⟨i, hi, ⟨j, ⟨hj, hne⟩, rfl⟩⟩, rfl, rfl⟩

theorem getHoverCells_main (item : DragItem) (off0 : ℤ × ℤ)
    (rows cols : ℕ) (S G rl rt : ℤ) (pattern : Pattern)
    (hpat : item.pattern = some pattern) (hlen : pattern.length ≠ 0) :
    getHoverCells true (some item) (some off0) false rows cols S G rl rt =
      (footprintCells pattern
        (dropOrigin S G pattern item.pointerOffset off0 rl rt).1
        (dropOrigin S G pattern item.pointerOffset off0 rl rt).2).filter
        (fun cell =>
          decide (0 ≤ cell.1) && decide (cell.1 < (rows : ℤ)) &&
          decide (0 ≤ cell.2) && decide (cell.2 < (cols : ℤ))) := by
  obtain ⟨pat, po, pid, ty, co⟩ := item
  simp only at hpat ⊢
  subst hpat
  simp only [getHoverCells]
  rw [if_neg (by simp), if_neg hlen]

/-- Claim C10: the hover preview is empty in edition mode, without an
in-progress drag, without a client offset, or with a missing or empty
pattern; otherwise it contains exactly the set cells of the dragged
pattern, offset by the origin obtained from the same block-index and
rounding computation as the drop path, that lie inside the grid bounds; in
particular a placement the validator rejects can still produce a non-empty
clipped preview (the state is never mutated: the function only reads). -/
theorem c10_hover_preview :
    (∀ isD item off rows cols S G rl rt,
      getHoverCells isD item off true rows cols S G rl rt = []) ∧
    (∀ item off em rows cols S G rl rt,
      getHoverCells false item off em rows cols S G rl rt = []) ∧
    (∀ isD off em rows cols S G rl rt,
      getHoverCells isD none off em rows cols S G rl rt = []) ∧
    (∀ isD item em rows cols S G rl rt,
      getHoverCells isD item none em rows cols S G rl rt = []) ∧
    (∀ item off0 em rows cols S G rl rt,
      item.pattern = none ∨ item.pattern = some [] →
      getHoverCells true (some item) (some off0) em rows cols S G rl rt = []) ∧
    (∀ item off0 rows cols S G rl rt pattern (tr tc : ℤ),
      item.pattern = some pattern → pattern.length ≠ 0 →
      ((tr, tc) ∈ getHoverCells true (some item) (some off0) false rows cols
          S G rl rt ↔
        ∃ i j : ℕ, i < pattern.length ∧ j < (pattern.getD i []).length ∧
          (pattern.getD i []).getD j 0 ≠ 0 ∧
          tr = (dropOrigin S G pattern item.pointerOffset off0 rl rt).1 + (i : ℤ) ∧
          tc = (dropOrigin S G pattern item.pointerOffset off0 rl rt).2 + (j : ℤ) ∧
          0 ≤ tr ∧ tr < (rows : ℤ) ∧ 0 ≤ tc ∧ tc < (cols : ℤ))) ∧
    (placementValid 5 5 [[1, 1]] 0 4 = false ∧
      getHoverCells true (some ⟨some [[1, 1]], some (0, 0), none, "t", "c"⟩)
        (some (148, 8)) false 5 5 30 5 0 0 = [(0, 4)]) := by
  refine ⟨?_, ?_, ?_, ?_, ?_, ?_, by decide, by decide⟩
  · intro isD item off rows cols S G rl rt
    cases isD with
    | false => rfl
    | true =>
      cases item with
      | none => rfl
      | some it =>
        cases off with
        | none => rfl
        | some o =>
          simp only [getHoverCells]
          rw [if_pos trivial]
  · intro item off em rows cols S G rl rt
    rfl
  · intro isD off em rows cols S G rl rt
    cases isD <;> rfl
  · intro isD item em rows cols S G rl rt
    cases isD with
    | false => rfl
    | true => cases item <;> rfl
  · intro item off0 em rows cols S G rl rt h
    obtain ⟨pat, po, pid, ty, co⟩ := item
    simp only at h
    rcases h with h | h
    · subst h
      cases em <;> rfl
    · subst h
      cases em with
      | true =>
        simp only [getHoverCells]
        rw [if_pos trivial]
      | false =>
        simp only [getHoverCells]
        rw [if_neg (by simp)]
        rfl
  · intro item off0 rows cols S G rl rt pattern tr tc hpat hlen
    rw [getHoverCells_main item off0 rows cols S G rl rt pattern hpat hlen]
    rw [List.mem_filter, mem_footprintCells]
    simp only [Bool.and_eq_true, decide_eq_true_eq]
    constructor
    · rintro ⟨⟨i, j, hi, hj, hne, rfl, rfl⟩, ⟨⟨h1, h2⟩, h3⟩, h4⟩
      exact ⟨i, j, hi, hj, hne, rfl, rfl, h1, h2, h3, h4⟩
    · rintro ⟨i, j, hi, hj, hne, rfl, rfl, h1, h2, h3, h4⟩
      exact ⟨⟨i, j, hi, hj, hne, rfl, rfl⟩, ⟨⟨h1, h2⟩, h3⟩, h4⟩

/-- Witness for C10: at the concrete rejected 1x2 drop near the right edge
the preview contains exactly the single in-bounds cell (0,4). -/
theorem c10_hover_preview_witness :
    ((0 : ℤ), (4 : ℤ)) ∈ getHoverCells true
      (some ⟨some [[1, 1]], some (0, 0), none, "t", "c"⟩)
      (some (148, 8)) false 5 5 30 5 0 0 := by
  have h := (c10_hover_preview.2.2.2.2.2.1
    ⟨some [[1, 1]], some (0, 0), none, "t", "c"⟩ (148, 8) 5 5 30 5 0 0
    [[1, 1]] 0 4 rfl (by decide)).mpr
  apply h
  refine ⟨0, 0, by decide, by decide, by decide, by decide, by decide,
    by decide, by decide, by decide, by decide⟩

theorem foldl_min_le_init (l : List ℕ) (a : ℕ) : l.foldl min a ≤ a := by
  induction l generalizing a with
  | nil => exact le_refl a
  | cons x t ih => exact le_trans (ih (min a x)) (min_le_left a x)

theorem foldl_min_le_mem (l : List ℕ) (a : ℕ) (x : ℕ) (hx : x ∈ l) :
    l.foldl min a ≤ x := by
  induction l generalizing a with
  | nil => cases hx
  | cons y t ih =>
    rcases List.mem_cons.mp hx with rfl | hxt
    · exact le_trans (foldl_min_le_init t (min a x)) (min_le_right a x)
    · exact ih (min a y) hxt

theorem foldl_min_cases (l : List ℕ) (a : ℕ) :
    l.foldl min a = a ∨ l.foldl min a ∈ l := by
  induction l generalizing a with
  | nil => exact Or.inl rfl
  | cons x t ih =>
    rcases ih (min a x) with h | h
    · rcases min_choice a x with hm | hm
      · rw [List.foldl_cons, h, hm]
        exact Or.inl rfl
      · right
        rw [List.foldl_cons, h, hm]
        exact List.mem_cons_self x t
    · exact Or.inr (List.mem_cons_of_mem x h)

theorem foldl_min_mem_of_lt (l : List ℕ) (a : ℕ) (h : ∀ x ∈ l, x < a)
    (hne : l ≠ []) : l.foldl min a ∈ l := by
  rcases foldl_min_cases l a with heq | hmem
  · exfalso
    obtain ⟨x, hx⟩ := List.exists_mem_of_ne_nil l hne
    have h1 := foldl_min_le_mem l a x hx
    have h2 := h x hx
    omega
  · exact hmem

theorem le_foldl_max (l : List ℕ) (a : ℕ) : a ≤ l.foldl max a := by
  induction l generalizing a with
  | nil => exact le_refl a
  | cons x t ih => exact le_trans (le_max_left a x) (ih (max a x))

theorem mem_le_foldl_max (l : List ℕ) (a : ℕ) (x : ℕ) (hx : x ∈ l) :
    x ≤ l.foldl max a := by
  induction l generalizing a with
  | nil => cases hx
  | cons y t ih =>
    rcases List.mem_cons.mp hx with rfl | hxt
    · exact le_trans (le_max_right a x) (le_foldl_max t (max a x))
    · exact ih (max a y) hxt

theorem foldl_max_le (l : List ℕ) (a b : ℕ) (ha : a ≤ b)
    (h : ∀ x ∈ l, x ≤ b) : l.foldl max a ≤ b := by
  induction l generalizing a with
  | nil => exact ha
  | cons x t ih =>
    refine ih (max a x) (max_le ha (h x (List.mem_cons_self x t))) ?_
    intro y hy
    exact h y (List.mem_cons_of_mem x hy)

theorem foldl_max_cases (l : List ℕ) (a : ℕ) :
    l.foldl max a = a ∨ l.foldl max a ∈ l := by
  induction l generalizing a with
  | nil => exact Or.inl rfl
  | cons x t ih =>
    rcases ih (max a x) with h | h
    · rcases max_choice a x with hm | hm
      · rw [List.foldl_cons, h, hm]
        exact Or.inl rfl
      · right
        rw [List.foldl_cons, h, hm]
        exact List.mem_cons_self x t
    · exact Or.inr (List.mem_cons_of_mem x h)

theorem foldl_max_zero_mem (l : List ℕ) (hne : l ≠ []) :
    l.foldl max 0 ∈ l := by
  rcases foldl_max_cases l 0 with heq | hmem
  · obtain ⟨x, hx⟩ := List.exists_mem_of_ne_nil l hne
    have h1 := mem_le_foldl_max l 0 x hx
    rw [heq] at h1
    have : x = 0 := Nat.le_zero.mp h1
    rw [heq, ← this]
    exact hx
  · exact hmem

theorem mem_setPositions (pat : Pattern) (i j : ℕ) :
    (i, j) ∈ setPositions pat ↔ SetCell pat i j := by
  simp only [setPositions, List.mem_flatMap, List.mem_map, List.mem_filter,
    List.mem_range, decide_eq_true_eq, SetCell, Prod.mk.injEq]
  constructor
  · rintro ⟨i', hi', j', ⟨hj', hne⟩, rfl, rfl⟩
    exact ⟨hi', hj', hne⟩
  · rintro ⟨hi, hj, hne⟩
    exact ⟨i, hi, j, ⟨hj, hne⟩, rfl, rfl⟩

theorem setPositions_eq_nil_iff (pat : Pattern) :
    setPositions pat = [] ↔ ∀ i j, ¬ SetCell pat i j := by
  rw [List.eq_nil_iff_forall_not_mem]
  constructor
  · intro h i j hset
    exact h (i, j) ((mem_setPositions pat i j).mpr hset)
  · rintro h ⟨i, j⟩ hmem
    exact h i j ((mem_setPositions pat i j).mp hmem)

theorem trimMinRow_le (pat : Pattern) (i j : ℕ)
    (h : (i, j) ∈ setPositions pat) : trimMinRow pat ≤ i :=
  foldl_min_le_mem _ _ i (List.mem_map_of_mem Prod.fst h)

theorem trimMaxRow_ge (pat : Pattern) (i j : ℕ)
    (h : (i, j) ∈ setPositions pat) : i ≤ trimMaxRow pat :=
  mem_le_foldl_max _ _ i (List.mem_map_of_mem Prod.fst h)

theorem trimMinCol_le (pat : Pattern) (i j : ℕ)
    (h : (i, j) ∈ setPositions pat) : trimMinCol pat ≤ j :=
  foldl_min_le_mem _ _ j (List.mem_map_of_mem Prod.snd h)

theorem trimMaxCol_ge (pat : Pattern) (i j : ℕ)
    (h : (i, j) ∈ setPositions pat) : j ≤ trimMaxCol pat :=
  mem_le_foldl_max _ _ j (List.mem_map_of_mem Prod.snd h)

theorem trimMinRow_set (pat : Pattern) (hpos : setPositions pat ≠ []) :
    ∃ j, SetCell pat (trimMinRow pat) j := by
  have hmem : trimMinRow pat ∈ (setPositions pat).map Prod.fst := by
    apply foldl_min_mem_of_lt
    · intro x hx
      obtain ⟨⟨i, j⟩, hij, rfl⟩ := List.mem_map.mp hx
      exact ((mem_setPositions pat i j).mp hij).1
    · simpa [List.map_eq_nil_iff] using hpos
  obtain ⟨⟨i, j⟩, hij, he⟩ := List.mem_map.mp hmem
  simp only at he
  subst he
  exact ⟨j, (mem_setPositions pat _ j).mp hij⟩

theorem trimMaxRow_set (pat : Pattern) (hpos : setPositions pat ≠ []) :
    ∃ j, SetCell pat (trimMaxRow pat) j := by
  have hmem : trimMaxRow pat ∈ (setPositions pat).map Prod.fst := by
    apply foldl_max_zero_mem
    simpa [List.map_eq_nil_iff] using hpos
  obtain ⟨⟨i, j⟩, hij, he⟩ := List.mem_map.mp hmem
  simp only at he
  subst he
  exact ⟨j, (mem_setPositions pat _ j).mp hij⟩

theorem rect_of_setPositions_ne_nil (pat : Pattern) (R C : ℕ)
    (hrect : Rect pat R C) (hpos : setPositions pat ≠ []) : 0 < R := by
  obtain ⟨⟨i, j⟩, hij⟩ := List.exists_mem_of_ne_nil _ hpos
  have h1 := ((mem_setPositions pat i j).mp hij).1
  have h2 := hrect.1
  omega

theorem trimMinCol_set (pat : Pattern) (R C : ℕ) (hrect : Rect pat R C)
    (hpos : setPositions pat ≠ []) :
    ∃ i, SetCell pat i (trimMinCol pat) := by
  have hR0 : 0 < R := rect_of_setPositions_ne_nil pat R C hrect hpos
  have hmem : trimMinCol pat ∈ (setPositions pat).map Prod.snd := by
    apply foldl_min_mem_of_lt
    · intro x hx
      obtain ⟨⟨i, j⟩, hij, rfl⟩ := List.mem_map.mp hx
      have hset := (mem_setPositions pat i j).mp hij
      have hlen : (pat.getD i []).length = C := by
        apply rect_getD_mem hrect
        have := hset.1
        have := hrect.1
        omega
      rw [rect_headD hrect hR0]
      have hj := hset.2.1
      rw [hlen] at hj
      simpa using hj
    · simpa [List.map_eq_nil_iff] using hpos
  obtain ⟨⟨i, j⟩, hij, he⟩ := List.mem_map.mp hmem
  simp only at he
  subst he
  exact ⟨i, (mem_setPositions pat i _).mp hij⟩

theorem trimMaxCol_set (pat : Pattern) (hpos : setPositions pat ≠ []) :
    ∃ i, SetCell pat i (trimMaxCol pat) := by
  have hmem : trimMaxCol pat ∈ (setPositions pat).map Prod.snd := by
    apply foldl_max_zero_mem
    simpa [List.map_eq_nil_iff] using hpos
  obtain ⟨⟨i, j⟩, hij, he⟩ := List.mem_map.mp hmem
  simp only at he
  subst he
  exact ⟨i, (mem_setPositions pat i _).mp hij⟩

theorem getD_take_drop (l : List ℕ) (a w j : ℕ) (hj : j < w) :
    ((l.drop a).take w).getD j 0 = l.getD (a + j) 0 := by
  simp [List.getD_eq_getElem?_getD, List.getElem?_take, hj,
    List.getElem?_drop]

theorem range_map_getD {α : Type} (l : List α) (d : α) :
    (List.range l.length).map (fun t => l.getD t d) = l := by
  apply List.ext_getElem
  · simp
  · intro i h1 h2
    rw [List.getElem_map]
    rw [List.getElem_range]
    exact getD_eq_getElem l d i h2

theorem trim_bounds_le (pat : Pattern) (hpos : setPositions pat ≠ []) :
    trimMinRow pat ≤ trimMaxRow pat ∧ trimMinCol pat ≤ trimMaxCol pat := by
  constructor
  · obtain ⟨j, hset⟩ := trimMaxRow_set pat hpos
    exact trimMinRow_le pat _ j ((mem_setPositions pat _ j).mpr hset)
  · obtain ⟨i, hset⟩ := trimMaxCol_set pat hpos
    exact le_trans
      (trimMinCol_le pat i _ ((mem_setPositions pat i _).mpr hset))
      (le_refl _)

theorem trimMaxRow_lt (pat : Pattern) (hpos : setPositions pat ≠ []) :
    trimMaxRow pat < pat.length := by
  obtain ⟨j, hset⟩ := trimMaxRow_set pat hpos
  exact hset.1

theorem trimMaxCol_lt (pat : Pattern) (R C : ℕ) (hrect : Rect pat R C)
    (hpos : setPositions pat ≠ []) : trimMaxCol pat < C := by
  obtain ⟨i, hset⟩ := trimMaxCol_set pat hpos
  have hlen : (pat.getD i []).length = C := by
    apply rect_getD_mem hrect
    have := hset.1
    have := hrect.1
    omega
  have := hset.2.1
  omega

theorem trimPattern_pos_length (pat : Pattern)
    (hpos : setPositions pat ≠ []) :
    (trimPattern pat).length = trimMaxRow pat + 1 - trimMinRow pat := by
  rw [trimPattern, if_neg hpos]
  simp

theorem trimPattern_pos_getD (pat : Pattern) (hpos : setPositions pat ≠ [])
    (t : ℕ) (ht : t < trimMaxRow pat + 1 - trimMinRow pat) :
    (trimPattern pat).getD t [] =
      ((pat.getD (trimMinRow pat + t) []).drop (trimMinCol pat)).take
        (trimMaxCol pat + 1 - trimMinCol pat) := by
  rw [trimPattern, if_neg hpos]
  simp [List.getD_eq_getElem?_getD, List.getElem?_map, List.getElem?_range, ht]

theorem trimPattern_row_length (pat : Pattern) (R C : ℕ)
    (hrect : Rect pat R C) (hpos : setPositions pat ≠ [])
    (t : ℕ) (ht : t < trimMaxRow pat + 1 - trimMinRow pat) :
    ((trimPattern pat).getD t []).length =
      trimMaxCol pat + 1 - trimMinCol pat := by
  rw [trimPattern_pos_getD pat hpos t ht]
  have hrow : (pat.getD (trimMinRow pat + t) []).length = C := by
    apply rect_getD_mem hrect
    have h1 := trimMaxRow_lt pat hpos
    have h2 := hrect.1
    omega
  rw [List.length_take, List.length_drop, hrow]
  have h3 := trimMaxCol_lt pat R C hrect hpos
  have h4 := (trim_bounds_le pat hpos).2
  omega

theorem trimPattern_entry (pat : Pattern) (hpos : setPositions pat ≠ [])
    (t j : ℕ) (ht : t < trimMaxRow pat + 1 - trimMinRow pat)
    (hj : j < trimMaxCol pat + 1 - trimMinCol pat) :
    ((trimPattern pat).getD t []).getD j 0 =
      (pat.getD (trimMinRow pat + t) []).getD (trimMinCol pat + j) 0 := by
  rw [trimPattern_pos_getD pat hpos t ht]
  exact getD_take_drop _ _ _ _ hj

theorem trimPattern_rect (pat : Pattern) (R C : ℕ) (hrect : Rect pat R C)
    (hpos : setPositions pat ≠ []) :
    Rect (trimPattern pat) (trimMaxRow pat + 1 - trimMinRow pat)
      (trimMaxCol pat + 1 - trimMinCol pat) := by
  refine ⟨trimPattern_pos_length pat hpos, ?_⟩
  intro r hr
  obtain ⟨t, ht, rfl⟩ : ∃ t, t < trimMaxRow pat + 1 - trimMinRow pat ∧
      (trimPattern pat).getD t [] = r := by
    obtain ⟨t, ht, he⟩ := List.mem_iff_getElem.mp hr
    refine ⟨t, ?_, ?_⟩
    · rw [trimPattern_pos_length pat hpos] at ht
      exact ht
    · rw [getD_eq_getElem _ [] t ht, he]
  exact trimPattern_row_length pat R C hrect hpos t ht

theorem trim_set_of_set (pat : Pattern) (R C : ℕ) (hrect : Rect pat R C)
    (hpos : setPositions pat ≠ []) (i j : ℕ) (hset : SetCell pat i j) :
    SetCell (trimPattern pat) (i - trimMinRow pat) (j - trimMinCol pat) := by
  have hmem := (mem_setPositions pat i j).mpr hset
  have h1 := trimMinRow_le pat i j hmem
  have h2 := trimMaxRow_ge pat i j hmem
  have h3 := trimMinCol_le pat i j hmem
  have h4 := trimMaxCol_ge pat i j hmem
  have ht : i - trimMinRow pat < trimMaxRow pat + 1 - trimMinRow pat := by
    omega
  have hj : j - trimMinCol pat < trimMaxCol pat + 1 - trimMinCol pat := by
    omega
  refine ⟨?_, ?_, ?_⟩
  · rw [trimPattern_pos_length pat hpos]
    exact ht
  · rw [trimPattern_row_length pat R C hrect hpos _ ht]
    exact hj
  · rw [trimPattern_entry pat hpos _ _ ht hj]
    have e1 : trimMinRow pat + (i - trimMinRow pat) = i := by omega
    have e2 : trimMinCol pat + (j - trimMinCol pat) = j := by omega
    rw [e1, e2]
    exact hset.2.2

theorem trim_of_tight (q : Pattern) (L W : ℕ) (hrect : Rect q L W)
    (hL : 0 < L) (hW : 0 < W)
    (h0 : ∃ j, SetCell q 0 j) (hL1 : ∃ j, SetCell q (L - 1) j)
    (hc0 : ∃ t, SetCell q t 0) (hcW : ∃ t, SetCell q t (W - 1)) :
    trimPattern q = q := by
  obtain ⟨j0, h0⟩ := h0
  obtain ⟨jL, hL1⟩ := hL1
  obtain ⟨t0, hc0⟩ := hc0
  obtain ⟨tW, hcW⟩ := hcW
  have hpos : setPositions q ≠ [] :=
    List.ne_nil_of_mem ((mem_setPositions q 0 j0).mpr h0)
  have hmR : trimMinRow q = 0 :=
    Nat.le_zero.mp (trimMinRow_le q 0 j0 ((mem_setPositions q 0 j0).mpr h0))
  have hmC : trimMinCol q = 0 :=
    Nat.le_zero.mp (trimMinCol_le q t0 0 ((mem_setPositions q t0 0).mpr hc0))
  have hxR : trimMaxRow q = L - 1 := by
    apply le_antisymm
    · apply foldl_max_le _ _ _ (by omega)
      intro x hx
      obtain ⟨⟨a, b⟩, hab, rfl⟩ := List.mem_map.mp hx
      have := ((mem_setPositions q a b).mp hab).1
      have := hrect.1
      simp only
      omega
    · exact trimMaxRow_ge q (L - 1) jL ((mem_setPositions q (L - 1) jL).mpr hL1)
  have hxC : trimMaxCol q = W - 1 := by
    apply le_antisymm
    · apply foldl_max_le _ _ _ (by omega)
      intro x hx
      obtain ⟨⟨a, b⟩, hab, rfl⟩ := List.mem_map.mp hx
      have hset := (mem_setPositions q a b).mp hab
      have hlen : (q.getD a []).length = W := by
        apply rect_getD_mem hrect
        have := hset.1
        have := hrect.1
        omega
      have := hset.2.1
      simp only
      omega
    · exact trimMaxCol_ge q tW (W - 1) ((mem_setPositions q tW (W - 1)).mpr hcW)
  rw [trimPattern, if_neg hpos, hmR, hmC, hxR, hxC]
  have hL' : L - 1 + 1 - 0 = L := by omega
  have hW' : W - 1 + 1 - 0 = W := by omega
  rw [hL', hW']
  apply List.ext_getElem
  · simp [hrect.1]
  · intro i h1 h2
    rw [List.getElem_map, List.getElem_range]
    simp only [Nat.zero_add, List.drop_zero]
    have hiL : i < L := by
      have := hrect.1
      omega
    have hrow : (q.getD i []).length = W := rect_getD_mem hrect hiL
    rw [List.take_of_length_le (le_of_eq hrow)]
    exact getD_eq_getElem q [] i h2

/-- Claim C7: trim of a rectangular pattern is the sub-matrix sliced to the
minimal bounding box of the set cells: with no set cell the result is
[[1]]; otherwise there is an offset (r0, c0) such that trim is a non-empty
rectangular matrix whose entries are the pattern entries shifted by
(r0, c0), every set cell of the pattern falls inside the box, and the first
and last row and first and last column of trim each contain a set cell;
finally trim is idempotent (no-mutation is immediate in a pure embedding). -/
theorem c7_trim_correct (pat : Pattern) (R C : ℕ) (hrect : Rect pat R C) :
    ((∀ i j, ¬ SetCell pat i j) → trimPattern pat = [[1]]) ∧
    ((∃ i j, SetCell pat i j) →
      ∃ r0 c0 L W : ℕ, 0 < L ∧ 0 < W ∧
        (trimPattern pat).length = L ∧
        (∀ row ∈ trimPattern pat, row.length = W) ∧
        (∀ t j, t < L → j < W →
          ((trimPattern pat).getD t []).getD j 0 =
            (pat.getD (r0 + t) []).getD (c0 + j) 0) ∧
        (∀ i j, SetCell pat i j →
          r0 ≤ i ∧ i < r0 + L ∧ c0 ≤ j ∧ j < c0 + W) ∧
        (∃ j, SetCell (trimPattern pat) 0 j) ∧
        (∃ j, SetCell (trimPattern pat) (L - 1) j) ∧
        (∃ t, SetCell (trimPattern pat) t 0) ∧
        (∃ t, SetCell (trimPattern pat) t (W - 1))) ∧
    trimPattern (trimPattern pat) = trimPattern pat := by
  by_cases hpos : setPositions pat = []
  · have hempty : trimPattern pat = [[1]] := by
      rw [trimPattern, if_pos hpos]
    refine ⟨fun _ => hempty, ?_, ?_⟩
    · rintro ⟨i, j, hset⟩
      exact absurd hset ((setPositions_eq_nil_iff pat).mp hpos i j)
    · rw [hempty]
      decide
  · have hb := trim_bounds_le pat hpos
    have hL : 0 < trimMaxRow pat + 1 - trimMinRow pat := by omega
    have hW : 0 < trimMaxCol pat + 1 - trimMinCol pat := by omega
    have hrect' := trimPattern_rect pat R C hrect hpos
    have hbound0 : ∃ j, SetCell (trimPattern pat) 0 j := by
      obtain ⟨j, hset⟩ := trimMinRow_set pat hpos
      have := trim_set_of_set pat R C hrect hpos _ j hset
      rw [Nat.sub_self] at this
      exact ⟨_, this⟩
    have hboundL : ∃ j, SetCell (trimPattern pat)
        (trimMaxRow pat + 1 - trimMinRow pat - 1) j := by
      obtain ⟨j, hset⟩ := trimMaxRow_set pat hpos
      have := trim_set_of_set pat R C hrect hpos _ j hset
      have he : trimMaxRow pat - trimMinRow pat =
          trimMaxRow pat + 1 - trimMinRow pat - 1 := by omega
      rw [he] at this
      exact ⟨_, this⟩
    have hboundc0 : ∃ t, SetCell (trimPattern pat) t 0 := by
      obtain ⟨i, hset⟩ := trimMinCol_set pat R C hrect hpos
      have := trim_set_of_set pat R C hrect hpos i _ hset
      rw [Nat.sub_self] at this
      exact ⟨_, this⟩
    have hboundcW : ∃ t, SetCell (trimPattern pat) t
        (trimMaxCol pat + 1 - trimMinCol pat - 1) := by
      obtain ⟨i, hset⟩ := trimMaxCol_set pat hpos
      have := trim_set_of_set pat R C hrect hpos i _ hset
      have he : trimMaxCol pat - trimMinCol pat =
          trimMaxCol pat + 1 - trimMinCol pat - 1 := by omega
      rw [he] at this
      exact ⟨_, this⟩
    refine ⟨?_, ?_, ?_⟩
    · intro hall
      exact absurd ((setPositions_eq_nil_iff pat).mpr hall) hpos
    · intro _
      refine ⟨trimMinRow pat, trimMinCol pat,
        trimMaxRow pat + 1 - trimMinRow pat,
        trimMaxCol pat + 1 - trimMinCol pat,
        hL, hW, trimPattern_pos_length pat hpos, hrect'.2,
        fun t j ht hj => trimPattern_entry pat hpos t j ht hj,
        ?_, hbound0, hboundL, hboundc0, hboundcW⟩
      intro i j hset
      have hmem := (mem_setPositions pat i j).mpr hset
      have h1 := trimMinRow_le pat i j hmem
      have h2 := trimMaxRow_ge pat i j hmem
      have h3 := trimMinCol_le pat i j hmem
      have h4 := trimMaxCol_ge pat i j hmem
      omega
    · exact trim_of_tight (trimPattern pat) _ _ hrect' hL hW
        hbound0 hboundL hboundc0 hboundcW

/-- Witness for C7 at a concrete 3x3 pattern with a single centered set
cell: trim gives [[1]] sliced to the 1x1 box and is idempotent. -/
theorem c7_trim_correct_witness :
    trimPattern (trimPattern [[0,0,0],[0,1,0],[0,0,0]]) =
      trimPattern [[0,0,0],[0,1,0],[0,0,0]] ∧
    (∃ i j, SetCell [[0,0,0],[0,1,0],[0,0,0]] i j) ∧
    (trimPattern [[0,0,0],[0,0,0]] = [[1]]) := by
  have h := c7_trim_correct [[0,0,0],[0,1,0],[0,0,0]] 3 3
    (by constructor <;> decide)
  refine ⟨h.2.2, ⟨1, 1, by decide⟩, ?_⟩
  have h2 := c7_trim_correct [[0,0,0],[0,0,0]] 2 3 (by constructor <;> decide)
  exact h2.1 ((setPositions_eq_nil_iff _).mp (by decide))

end TWS
